import Mathlib

/-!
Shallow embedding of the `advanced_stock_analyzer` repository
(`stock_calculator.py` and `advanced_stock_analyzer.py`) and proofs about it.

Conventions of the embedding:
* Python floats are modelled as `ℚ` (all arithmetic in the source is exact
  field arithmetic on the inputs); share counts are `ℤ` (Python `int`);
  dates are `ℕ` (only their ordering is used).
* Python code that can raise an exception is modelled with `Option`:
  `none` means an exception escapes.  The only exception source reachable
  through the analysed entry points is `statistics.stdev` called with fewer
  than two data points inside `RiskAnalyzer.calculate_volatility`.
* The advisory strings of the source are modelled by inductive types, one
  constructor per distinct string produced by the source; the substring
  tests of the source on those strings become tests on the constructors.
-/

namespace StockSpec

/-- Action of a trade: the source uses the strings "buy" and "sell". -/
inductive Action where
  | buy : Action
  | sell : Action
deriving DecidableEq, Repr

/-- Trade record (`stock_calculator.Trade`): date, action, price, shares,
commission, free-text description. -/
structure Trade where
  date : ℕ
  action : Action
  price : ℚ
  shares : ℤ
  commission : ℚ
  description : String
deriving DecidableEq, Repr

/-- Running position while replaying trades: the three mutable fields
`current_shares`, `total_cost`, `total_commission` of `StockCalculator`. -/
structure Pos where
  shares : ℤ
  cost : ℚ
  commission : ℚ
deriving DecidableEq, Repr

/-- One loop iteration of `StockCalculator._recalculate_position`:
a buy adds shares/cost/commission; a sell acts only when `current_shares > 0`,
scaling the cost by `(1 - shares/current_shares)` and subtracting the shares.
A sell arriving with `current_shares <= 0` is skipped entirely (the
`commission` update is inside the `if`, so it is skipped too). -/
def step (s : Pos) (t : Trade) : Pos :=
  match t.action with
  | .buy =>
      { shares := s.shares + t.shares
        cost := s.cost + t.price * (t.shares : ℚ)
        commission := s.commission + t.commission }
  | .sell =>
      if 0 < s.shares then
        let ratio : ℚ := (t.shares : ℚ) / (s.shares : ℚ)
        { shares := s.shares - t.shares
          cost := s.cost * (1 - ratio)
          commission := s.commission + t.commission }
      else s

/-- Full replay of a trade list from the zero position
(`_recalculate_position` body). -/
def replay (ts : List Trade) : Pos :=
  ts.foldl step ⟨0, 0, 0⟩

/-- State of a `StockCalculator`. -/
structure StockCalculator where
  stock_code : String
  trades : List Trade
  current_shares : ℤ
  total_cost : ℚ
  total_commission : ℚ
deriving DecidableEq, Repr

/-- Fresh calculator (`StockCalculator.__init__`). -/
def initCalc (code : String) : StockCalculator :=
  ⟨code, [], 0, 0, 0⟩

/-- The date order used by `self.trades.sort(key=lambda x: x.date)`. -/
def dateLE (a b : Trade) : Prop := a.date ≤ b.date

instance : DecidableRel dateLE := fun a b => Nat.decLe a.date b.date

/-- Re-sorting of the trade list by ascending date. -/
def sortByDate (ts : List Trade) : List Trade :=
  List.insertionSort dateLE ts

/-- Derive the position fields from the trade list
(`StockCalculator._recalculate_position`). -/
def recalc (c : StockCalculator) : StockCalculator :=
  let p := replay c.trades
  { c with current_shares := p.shares, total_cost := p.cost,
           total_commission := p.commission }

/-- `StockCalculator.add_trade`: append, sort by date, recompute position. -/
def add_trade (c : StockCalculator) (t : Trade) : StockCalculator :=
  recalc { c with trades := sortByDate (c.trades ++ [t]) }

/-- `StockCalculator.buy`. -/
def buyOp (c : StockCalculator) (date : ℕ) (price : ℚ) (shares : ℤ)
    (commission : ℚ) : StockCalculator :=
  add_trade c ⟨date, .buy, price, shares, commission, ""⟩

/-- `StockCalculator.sell`. -/
def sellOp (c : StockCalculator) (date : ℕ) (price : ℚ) (shares : ℤ)
    (commission : ℚ) : StockCalculator :=
  add_trade c ⟨date, .sell, price, shares, commission, ""⟩

/-- Folding `add_trade` over a whole insertion sequence. -/
def add_trades (c : StockCalculator) (ts : List Trade) : StockCalculator :=
  ts.foldl add_trade c

/-- `StockCalculator.get_average_cost`. -/
def get_average_cost (c : StockCalculator) : ℚ :=
  if c.current_shares ≤ 0 then 0 else c.total_cost / (c.current_shares : ℚ)

/-- `StockCalculator.get_total_investment`. -/
def get_total_investment (c : StockCalculator) : ℚ :=
  c.total_cost + c.total_commission

/-- Result record of `calculate_profit_loss`. -/
structure ProfitLoss where
  profit_loss : ℚ
  profit_loss_rate : ℚ
  market_value : ℚ
  total_investment : ℚ
deriving DecidableEq, Repr

/-- `StockCalculator.calculate_profit_loss`: zero-filled when
`current_shares <= 0`, otherwise market value against total investment. -/
def calculate_profit_loss (c : StockCalculator) (current_price : ℚ) :
    ProfitLoss :=
  if c.current_shares ≤ 0 then ⟨0, 0, 0, 0⟩
  else
    let market_value := current_price * (c.current_shares : ℚ)
    let total_investment := get_total_investment c
    let profit_loss := market_value - total_investment
    let rate := if 0 < total_investment then profit_loss / total_investment * 100 else 0
    ⟨profit_loss, rate, market_value, total_investment⟩

/-- Result record of `get_position_summary`. -/
structure PositionSummary where
  stock_code : String
  current_shares : ℤ
  average_cost : ℚ
  total_cost : ℚ
  total_commission : ℚ
  total_investment : ℚ
deriving DecidableEq, Repr

/-- `StockCalculator.get_position_summary`. -/
def get_position_summary (c : StockCalculator) : PositionSummary :=
  ⟨c.stock_code, c.current_shares, get_average_cost c, c.total_cost,
   c.total_commission, get_total_investment c⟩

/-! ## Technical indicators (`advanced_stock_analyzer.TechnicalIndicators`) -/

/-- `TechnicalIndicators.calculate_sma`: empty when `len(prices) < period`,
otherwise for each `i` in `period-1 .. len-1` the mean of
`prices[i-period+1 : i+1]`; below, `j = i - period + 1` indexes the windows. -/
def calculate_sma (prices : List ℚ) (period : ℕ) : List ℚ :=
  if prices.length < period then []
  else
    (List.range (prices.length - period + 1)).map
      (fun j => ((prices.drop j).take period).sum / (period : ℚ))

/-- The per-step changes `prices[i] - prices[i-1]` for `i` in `1 .. len-1`
(the loop building `gains`/`losses` in `calculate_rsi`). -/
def changes : List ℚ → List ℚ
  | p1 :: p2 :: rest => (p2 - p1) :: changes (p2 :: rest)
  | _ => []

/-- The `gains` series of `calculate_rsi`: `max(change, 0)` per step. -/
def gainsOf (prices : List ℚ) : List ℚ :=
  (changes prices).map (fun c => max c 0)

/-- The `losses` series of `calculate_rsi`: `max(-change, 0)` per step. -/
def lossesOf (prices : List ℚ) : List ℚ :=
  (changes prices).map (fun c => max (-c) 0)

/-- Trailing-window mean `sum(xs[j : j+period]) / period` — the
`avg_gain`/`avg_loss` computation of `calculate_rsi` with `j = i - period`. -/
def avgOf (xs : List ℚ) (j period : ℕ) : ℚ :=
  ((xs.drop j).take period).sum / (period : ℚ)

/-- One oscillator value from a mean gain and mean loss: `100` when the mean
loss is exactly `0`, else `100 - 100/(1 + avg_gain/avg_loss)`. -/
def rsiValue (g l : ℚ) : ℚ :=
  if l = 0 then 100 else 100 - 100 / (1 + g / l)

/-- `TechnicalIndicators.calculate_rsi`: empty when
`len(prices) < period + 1`, else one value per `i` in `period .. len-1`
(here `j = i - period`), each from the trailing `period` gains and losses.
The source raises `ZeroDivisionError` for `period = 0`; the embedding is
used only with `period ≥ 1` (the source's default is 14). -/
def calculate_rsi (prices : List ℚ) (period : ℕ) : List ℚ :=
  if prices.length < period + 1 then []
  else
    (List.range (prices.length - period)).map
      (fun j => rsiValue (avgOf (gainsOf prices) j period)
                         (avgOf (lossesOf prices) j period))

/-! ## Risk analyzer (`advanced_stock_analyzer.RiskAnalyzer`) -/

/-- The period-over-period returns `(p[i] - p[i-1]) / p[i-1]` of
`calculate_volatility`.  Division is total on `ℚ`; the source would raise
`ZeroDivisionError` on a zero price, which the data-model invariant
`price > 0` excludes. -/
def returnsOf : List ℚ → List ℚ
  | p1 :: p2 :: rest => ((p2 - p1) / p1) :: returnsOf (p2 :: rest)
  | _ => []

/-- Sample variance with divisor `n - 1`, the square of Python
`statistics.stdev` (modelled from the standard-library semantics; the
library itself is not part of this repository). -/
def sampleVarianceQ (xs : List ℚ) : ℚ :=
  let m := xs.sum / (xs.length : ℚ)
  (xs.map (fun x => (x - m) ^ 2)).sum / ((xs.length : ℚ) - 1)

/-- The square of the annualized volatility of
`RiskAnalyzer.calculate_volatility`, kept in `ℚ` so that it is executable:
`some 0` when fewer than 2 prices; `none` when `statistics.stdev` is called
with fewer than 2 returns and a `StatisticsError` escapes (exactly 2
prices); otherwise `some (sampleVariance(returns) * 252)`. -/
def annualized_variance (prices : List ℚ) : Option ℚ :=
  if prices.length < 2 then some 0
  else
    let rs := returnsOf prices
    if rs.length < 2 then none
    else some (sampleVarianceQ rs * 252)

/-- `RiskAnalyzer.calculate_volatility` itself:
`stdev(returns) * sqrt 252 = sqrt (sampleVariance(returns) * 252)`.
`none` models the escaping `StatisticsError`. -/
noncomputable def calculate_volatility (prices : List ℚ) : Option ℝ :=
  (annualized_variance prices).map (fun v : ℚ => Real.sqrt ((v : ℝ)))

/-- `RiskAnalyzer.calculate_max_drawdown`: running peak and maximum
fractional drawdown over the whole list (the first element re-enters the
loop and contributes drawdown 0). -/
def calculate_max_drawdown (prices : List ℚ) : ℚ :=
  if prices.length < 2 then 0
  else
    (prices.foldl
      (fun (st : ℚ × ℚ) (price : ℚ) =>
        if st.1 < price then (price, st.2)
        else
          let dd := (st.1 - price) / st.1
          (st.1, if st.2 < dd then dd else st.2))
      (prices.headD 0, 0)).2

/-! ## Advisory engine (`advanced_stock_analyzer.InvestmentAdvisor`) -/

/-- The five strings `analyze_trend` can return, one constructor each:
insufficient data, golden cross (strong buy), death cross (strong sell),
bullish trend, bearish trend. -/
inductive Trend where
  | insufficientData : Trend
  | goldenCross : Trend
  | deathCross : Trend
  | bullish : Trend
  | bearish : Trend
deriving DecidableEq, Repr

/-- `InvestmentAdvisor.analyze_trend`: needs `long_period` prices; compares
the last two points of the short and long moving averages; when a series has
a single point its previous value is read as its current value. -/
def analyze_trend (prices : List ℚ) (short_period long_period : ℕ) : Trend :=
  if prices.length < long_period then .insufficientData
  else
    let short_sma := calculate_sma prices short_period
    let long_sma := calculate_sma prices long_period
    if short_sma = [] ∨ long_sma = [] then .insufficientData
    else
      let current_short := short_sma.getLast?.getD 0
      let current_long := long_sma.getLast?.getD 0
      let prev_short :=
        if 1 < short_sma.length then short_sma.getD (short_sma.length - 2) 0
        else current_short
      let prev_long :=
        if 1 < long_sma.length then long_sma.getD (long_sma.length - 2) 0
        else current_long
      if current_long < current_short ∧ prev_short ≤ prev_long then .goldenCross
      else if current_short < current_long ∧ prev_long ≤ prev_short then .deathCross
      else if current_long < current_short then .bullish
      else .bearish

/-- The source tests `"买入" in trend` (the buy marker appears only in the
golden-cross string). -/
def trendHasBuy : Trend → Bool
  | .goldenCross => true
  | _ => false

/-- The source tests `"卖出" in trend` (the sell marker appears only in the
death-cross string). -/
def trendHasSell : Trend → Bool
  | .deathCross => true
  | _ => false

/-- The five strings `analyze_rsi_signal` can return. -/
inductive RsiSignal where
  | insufficientData : RsiSignal
  | overbought : RsiSignal
  | oversold : RsiSignal
  | strongZone : RsiSignal
  | weakZone : RsiSignal
deriving DecidableEq, Repr

/-- `InvestmentAdvisor.analyze_rsi_signal`: thresholds on the latest
oscillator value at the default period 14. -/
def analyze_rsi_signal (prices : List ℚ) : RsiSignal :=
  match (calculate_rsi prices 14).getLast? with
  | none => .insufficientData
  | some r =>
      if 70 < r then .overbought
      else if r < 30 then .oversold
      else if 50 < r then .strongZone
      else .weakZone

/-- Risk levels 低 / 中 / 高 of `get_comprehensive_advice`. -/
inductive RiskLevel where
  | low : RiskLevel
  | medium : RiskLevel
  | high : RiskLevel
deriving DecidableEq, Repr

/-- The advice strings `get_comprehensive_advice` can append, one
constructor per string, in source order. -/
inductive Advice where
  | takeProfit : Advice
  | holdOn : Advice
  | riskControl : Advice
  | averageDown : Advice
  | techBuy : Advice
  | techSell : Advice
  | highVol : Advice
deriving DecidableEq, Repr

/-- The full result dict of `get_comprehensive_advice`.  The source stores
the volatility itself; this record stores its square `ann_variance`
(see `annualized_variance`) so the record stays executable — the
volatility is `Real.sqrt ann_variance`, and the source's volatility test
`volatility > 0.5` is exactly `ann_variance > 1/4`
(theorem `sqrt_gt_half_iff` below). -/
structure AdviceBundle where
  position_summary : PositionSummary
  profit_loss : ProfitLoss
  trend : Trend
  rsi_signal : RsiSignal
  ann_variance : ℚ
  max_drawdown : ℚ
  risk_level : RiskLevel
  advice : List Advice
deriving DecidableEq, Repr

/-- Either the `{"error": "历史数据不足"}` dict returned on an empty price
list, or the full bundle. -/
inductive AdviceResult where
  | err : AdviceResult
  | ok : AdviceBundle → AdviceResult
deriving DecidableEq, Repr

/-- `InvestmentAdvisor.get_comprehensive_advice`.  `none` models the
`StatisticsError` escaping from `calculate_volatility` (the source computes
the volatility unconditionally before returning, so the exception fires
whenever the price list has exactly two entries). -/
def get_comprehensive_advice (c : StockCalculator) (current_price : ℚ)
    (historical_prices : List ℚ) : Option AdviceResult :=
  if historical_prices = [] then some .err
  else
    match annualized_variance historical_prices with
    | none => none
    | some av =>
        let position := get_position_summary c
        let pl := calculate_profit_loss c current_price
        let trend := analyze_trend historical_prices 5 20
        let rsi_signal := analyze_rsi_signal historical_prices
        let max_dd := calculate_max_drawdown historical_prices
        let base : List Advice × RiskLevel :=
          if 0 < pl.profit_loss then
            (if 20 < pl.profit_loss_rate then [.takeProfit] else [.holdOn], .low)
          else
            if pl.profit_loss_rate < -20 then ([.riskControl], .high)
            else ([.averageDown], .medium)
        let withTrend : List Advice :=
          if trendHasBuy trend then base.1 ++ [.techBuy]
          else if trendHasSell trend then base.1 ++ [.techSell]
          else base.1
        let final : List Advice × RiskLevel :=
          if 1 / 4 < av then (withTrend ++ [.highVol], .high)
          else (withTrend, base.2)
        some (.ok ⟨position, pl, trend, rsi_signal, av, max_dd,
                   final.2, final.1⟩)

/-! ## Analyzer entry point (`advanced_stock_analyzer.StockAnalyzer`) -/

/-- A price history sample (`PricePoint`). -/
structure PricePoint where
  date : ℕ
  price : ℚ
  volume : ℤ
deriving DecidableEq, Repr

/-- `StockAnalyzer` state: a calculator plus its recorded price history. -/
structure StockAnalyzer where
  calculator : StockCalculator
  price_history : List PricePoint
deriving DecidableEq, Repr

/-- `StockAnalyzer.get_price_list`. -/
def get_price_list (a : StockAnalyzer) : List ℚ :=
  a.price_history.map (fun p => p.price)

/-- `StockAnalyzer.analyze_stock`: substitutes `[current_price]` when the
recorded history is empty, then delegates to `get_comprehensive_advice`. -/
def analyze_stock (a : StockAnalyzer) (current_price : ℚ) :
    Option AdviceResult :=
  let prices := get_price_list a
  let prices := if prices = [] then [current_price] else prices
  get_comprehensive_advice a.calculator current_price prices

/-- Projection used to state facts about the trend field of an
`analyze_stock` result: `some` only when a full bundle came back. -/
def resultTrend : Option AdviceResult → Option Trend
  | some (.ok b) => some b.trend
  | _ => none

/-! ## Portfolio aggregator (`stock_calculator.StockPortfolio`) -/

/-- Result record of `get_portfolio_summary` (the per-stock dict is the
list of `(code, position summary, profit/loss info)` triples in iteration
order). -/
structure PortfolioSummary where
  total_investment : ℚ
  total_market_value : ℚ
  total_profit_loss : ℚ
  total_profit_loss_rate : ℚ
  stocks : List (String × PositionSummary × ProfitLoss)
deriving DecidableEq, Repr

/-- `current_prices.get(stock_code, 0.0)` over the price mapping, modelled
as an association list. -/
def lookupPrice (cps : List (String × ℚ)) (code : String) : Option ℚ :=
  (cps.find? (fun q => q.1 == code)).map (fun q => q.2)

/-- The price actually used: the mapping's value, or `0` when missing. -/
def getPrice (cps : List (String × ℚ)) (code : String) : ℚ :=
  (lookupPrice cps code).getD 0

/-- Accumulator step of the `get_portfolio_summary` loop: running totals of
investment, market value, profit/loss, plus the per-stock summaries. -/
def summaryStep (cps : List (String × ℚ))
    (acc : ℚ × ℚ × ℚ × List (String × PositionSummary × ProfitLoss))
    (p : String × StockCalculator) :
    ℚ × ℚ × ℚ × List (String × PositionSummary × ProfitLoss) :=
  let info := calculate_profit_loss p.2 (getPrice cps p.1)
  (acc.1 + info.total_investment,
   acc.2.1 + info.market_value,
   acc.2.2.1 + info.profit_loss,
   acc.2.2.2 ++ [(p.1, get_position_summary p.2, info)])

/-- `StockPortfolio.get_portfolio_summary`: loop over the held instruments
(dict modelled as an association list in insertion order), then the overall
rate guard. -/
def get_portfolio_summary (stocks : List (String × StockCalculator))
    (cps : List (String × ℚ)) : PortfolioSummary :=
  let r := stocks.foldl (summaryStep cps) (0, 0, 0, [])
  let rate := if 0 < r.1 then r.2.2.1 / r.1 * 100 else 0
  ⟨r.1, r.2.1, r.2.2.1, rate, r.2.2.2⟩

/-! ## Helper lemmas -/

/-- Replaying one more trade is one `step` on the replayed prefix. -/
theorem replay_append (ts : List Trade) (t : Trade) :
    replay (ts ++ [t]) = step (replay ts) t := by
  simp [replay, List.foldl_append]

/-- Length of the return series: one fewer than the price list. -/
theorem returnsOf_length (prices : List ℚ) :
    (returnsOf prices).length = prices.length - 1 := by
  induction prices with
  | nil => simp [returnsOf]
  | cons p rest ih =>
      cases rest with
      | nil => simp [returnsOf]
      | cons q rest2 =>
          rw [returnsOf]
          simpa using ih

/-- Length of the change series: one fewer than the price list. -/
theorem changes_length (prices : List ℚ) :
    (changes prices).length = prices.length - 1 := by
  induction prices with
  | nil => simp [changes]
  | cons p rest ih =>
      cases rest with
      | nil => simp [changes]
      | cons q rest2 =>
          rw [changes]
          simpa using ih

/-- Sample variance is nonnegative on at least two data points. -/
theorem sampleVarianceQ_nonneg (xs : List ℚ) (h : 2 ≤ xs.length) :
    0 ≤ sampleVarianceQ xs := by
  unfold sampleVarianceQ
  apply div_nonneg
  · apply List.sum_nonneg
    intro x hx
    obtain ⟨y, _, rfl⟩ := List.mem_map.1 hx
    positivity
  · have : (2 : ℚ) ≤ (xs.length : ℚ) := by exact_mod_cast h
    linarith

/-- The volatility test `volatility > 0.5` of the source is the test
`ann_variance > 1/4` of the embedding: for a nonnegative variance `v`,
`sqrt v > 1/2` iff `v > 1/4`. -/
theorem sqrt_gt_half_iff (v : ℚ) (hv : 0 ≤ v) :
    (1 / 2 : ℝ) < Real.sqrt (v : ℝ) ↔ (1 / 4 : ℚ) < v := by
  rw [show ((1 : ℝ) / 2) = ((1 / 2 : ℚ) : ℝ) by norm_num]
  rw [Real.lt_sqrt (by positivity)]
  constructor
  · intro h
    have : ((1 / 4 : ℚ) : ℝ) < (v : ℝ) := by
      calc ((1 / 4 : ℚ) : ℝ) = ((1 / 2 : ℚ) : ℝ) ^ 2 := by norm_num
        _ < (v : ℝ) := h
    exact_mod_cast this
  · intro h
    calc ((1 / 2 : ℚ) : ℝ) ^ 2 = ((1 / 4 : ℚ) : ℝ) := by norm_num
      _ < (v : ℝ) := by exact_mod_cast h

/-- The variance (hence the volatility) computation yields a value exactly
when the price list does not have exactly two entries. -/
theorem annualized_variance_isSome (prices : List ℚ) :
    (annualized_variance prices).isSome ↔ prices.length ≠ 2 := by
  unfold annualized_variance
  have hlen := returnsOf_length prices
  by_cases h2 : prices.length < 2
  · have hne : prices.length ≠ 2 := by omega
    simp [h2, hne]
  · by_cases he : prices.length = 2
    · have h1 : (returnsOf prices).length < 2 := by omega
      simp [h2, h1, he]
    · have h1 : ¬ (returnsOf prices).length < 2 := by omega
      simp [h2, h1, he]

end StockSpec

namespace StockSpec

/-! ## Concrete instruments used in witnesses and counterexamples -/

/-- The round-trip calculator of the spec's worked example: buy 500 @ 20.00
(commission 5) on day 1, sell 500 @ 19.88 (commission 5) on day 15, buy
500 @ 20.14 (commission 5) on day 20. -/
def roundTripCalc : StockCalculator :=
  buyOp (sellOp (buyOp (initCalc "000001") 1 20 500 5) 15 (1988 / 100) 500 5)
    20 (2014 / 100) 500 5

/-- A sell trade arriving with no shares held: 1 share @ 1 with
commission 5. -/
def orphanSell : Trade := ⟨0, .sell, 1, 1, 5, ""⟩

/-- A 20-price series: nineteen constant prices then one jump, putting the
short moving average above the long one exactly at the first point where
the long series exists. -/
def jumpPrices : List ℚ := List.replicate 19 10 ++ [20]

/-- An analyzer with exactly two recorded price points. -/
def twoPointAnalyzer : StockAnalyzer :=
  ⟨initCalc "", [⟨1, 10, 0⟩, ⟨2, 11, 0⟩]⟩

/-- The bundle `get_comprehensive_advice` produces for an empty calculator
at price 10 with history `[10]`. -/
def zeroPositionBundle : AdviceBundle :=
  ⟨⟨"X", 0, 0, 0, 0, 0⟩, ⟨0, 0, 0, 0⟩, .insufficientData, .insufficientData,
   0, 0, .medium, [.averageDown]⟩

/-- The derived position fields agree with a full replay of the stored
trade list. -/
def Consistent (c : StockCalculator) : Prop :=
  c.current_shares = (replay c.trades).shares ∧
  c.total_cost = (replay c.trades).cost ∧
  c.total_commission = (replay c.trades).commission

/-- A fresh calculator is consistent. -/
theorem consistent_initCalc (code : String) : Consistent (initCalc code) := by
  simp [Consistent, initCalc, replay]

/-- Every `add_trade` re-derives the position, so consistency always holds
afterwards. -/
theorem consistent_add_trade (c : StockCalculator) (t : Trade) :
    Consistent (add_trade c t) := by
  simp [Consistent, add_trade, recalc]

/-- Consistency is preserved along any insertion sequence. -/
theorem consistent_add_trades (c : StockCalculator) (ts : List Trade)
    (h : Consistent c) : Consistent (add_trades c ts) := by
  induction ts generalizing c with
  | nil => exact h
  | cons t ts ih => exact ih _ (consistent_add_trade c t)

/-- The ledger after an insertion sequence is a permutation of the starting
ledger followed by the inserted trades (re-sorting only reorders). -/
theorem add_trades_trades_perm (ts : List Trade) (c : StockCalculator) :
    (add_trades c ts).trades.Perm (c.trades ++ ts) := by
  induction ts generalizing c with
  | nil => simp [add_trades]
  | cons t ts ih =>
      have h1 : (add_trades c (t :: ts)).trades.Perm
          ((add_trade c t).trades ++ ts) := ih (add_trade c t)
      have h2 : (add_trade c t).trades.Perm (c.trades ++ [t]) :=
        List.perm_insertionSort dateLE (c.trades ++ [t])
      have h3 := h1.trans (h2.append_right ts)
      simpa [List.append_assoc] using h3

/-- Replaying a list of buys from any starting position just adds the three
sums (shares, price·shares, commission). -/
theorem foldl_step_buys (ts : List Trade) :
    ∀ s : Pos, (∀ t ∈ ts, t.action = .buy) →
      ts.foldl step s =
        ⟨s.shares + (ts.map (fun t => t.shares)).sum,
         s.cost + (ts.map (fun t => t.price * (t.shares : ℚ))).sum,
         s.commission + (ts.map (fun t => t.commission)).sum⟩ := by
  induction ts with
  | nil => intro s h; cases s; simp
  | cons t ts ih =>
      intro s h
      have ht : t.action = .buy := h t (by simp)
      rw [List.foldl_cons]
      have hstep : step s t =
          ⟨s.shares + t.shares, s.cost + t.price * (t.shares : ℚ),
           s.commission + t.commission⟩ := by
        simp [step, ht]
      rw [hstep, ih _ (fun u hu => h u (by simp [hu]))]
      simp [add_assoc]

/-- Replay of a buys-only list from the zero position yields the three
sums. -/
theorem replay_buys (ts : List Trade) (h : ∀ t ∈ ts, t.action = .buy) :
    replay ts =
      ⟨(ts.map (fun t => t.shares)).sum,
       (ts.map (fun t => t.price * (t.shares : ℚ))).sum,
       (ts.map (fun t => t.commission)).sum⟩ := by
  simpa [replay] using foldl_step_buys ts ⟨0, 0, 0⟩ h

/-- Every element of the gains series is nonnegative. -/
theorem gainsOf_nonneg (prices : List ℚ) :
    ∀ x ∈ gainsOf prices, 0 ≤ x := by
  intro x hx
  obtain ⟨c, _, rfl⟩ := List.mem_map.1 hx
  exact le_max_right c 0

/-- Every element of the losses series is nonnegative. -/
theorem lossesOf_nonneg (prices : List ℚ) :
    ∀ x ∈ lossesOf prices, 0 ≤ x := by
  intro x hx
  obtain ⟨c, _, rfl⟩ := List.mem_map.1 hx
  exact le_max_right (-c) 0

/-- The trailing-window mean of a list of nonnegative values is
nonnegative. -/
theorem avgOf_nonneg (xs : List ℚ) (j period : ℕ)
    (h : ∀ x ∈ xs, 0 ≤ x) : 0 ≤ avgOf xs j period := by
  unfold avgOf
  apply div_nonneg
  · apply List.sum_nonneg
    intro x hx
    exact h x (List.mem_of_mem_drop (List.mem_of_mem_take hx))
  · positivity

/-- A single oscillator value from nonnegative mean gain and mean loss
lies in `[0, 100]`. -/
theorem rsiValue_bounds (g l : ℚ) (hg : 0 ≤ g) (hl : 0 ≤ l) :
    0 ≤ rsiValue g l ∧ rsiValue g l ≤ 100 := by
  unfold rsiValue
  by_cases h0 : l = 0
  · simp [h0]
  · rw [if_neg h0]
    have hlpos : 0 < l := lt_of_le_of_ne hl (Ne.symm h0)
    have hr : 0 ≤ g / l := div_nonneg hg hl
    have h1 : (0 : ℚ) < 1 + g / l := by linarith
    have hle : 100 / (1 + g / l) ≤ 100 := by
      apply div_le_self (by norm_num)
      linarith
    have hpos : 0 < 100 / (1 + g / l) := div_pos (by norm_num) h1
    constructor <;> linarith

/-- On a strictly increasing price list every per-step change is
positive. -/
theorem changes_pos (prices : List ℚ) (h : List.Chain' (· < ·) prices) :
    ∀ c ∈ changes prices, 0 < c := by
  induction prices with
  | nil => intro c hc; simp [changes] at hc
  | cons p rest ih =>
      cases rest with
      | nil => intro c hc; simp [changes] at hc
      | cons q rest2 =>
          intro c hc
          rw [changes] at hc
          rcases List.mem_cons.1 hc with hcq | hcr
          · have : p < q := (List.chain'_cons.1 h).1
            rw [hcq]
            linarith
          · exact ih (List.chain'_cons.1 h).2 c hcr

/-- On a strictly increasing price list every trailing mean loss is 0. -/
theorem avg_losses_zero (prices : List ℚ) (h : List.Chain' (· < ·) prices)
    (j period : ℕ) : avgOf (lossesOf prices) j period = 0 := by
  unfold avgOf
  have hz : (((lossesOf prices).drop j).take period).sum = 0 := by
    apply List.sum_eq_zero
    intro x hx
    have hmem : x ∈ lossesOf prices :=
      List.mem_of_mem_drop (List.mem_of_mem_take hx)
    obtain ⟨c, hc, rfl⟩ := List.mem_map.1 hmem
    have hcp : 0 < c := changes_pos prices h c hc
    have : -c ≤ 0 := by linarith
    simpa [max_eq_right] using max_eq_right this
  rw [hz, zero_div]

/-- Unfolding of the `get_portfolio_summary` accumulation loop: from any
starting accumulator it adds the three per-instrument sums and appends the
per-instrument summaries. -/
theorem foldl_summaryStep (cps : List (String × ℚ)) :
    ∀ (stocks : List (String × StockCalculator)) (a b d : ℚ)
      (s : List (String × PositionSummary × ProfitLoss)),
      stocks.foldl (summaryStep cps) (a, b, d, s) =
        (a + (stocks.map (fun p =>
          (calculate_profit_loss p.2 (getPrice cps p.1)).total_investment)).sum,
         b + (stocks.map (fun p =>
          (calculate_profit_loss p.2 (getPrice cps p.1)).market_value)).sum,
         d + (stocks.map (fun p =>
          (calculate_profit_loss p.2 (getPrice cps p.1)).profit_loss)).sum,
         s ++ stocks.map (fun p =>
          (p.1, get_position_summary p.2,
           calculate_profit_loss p.2 (getPrice cps p.1)))) := by
  intro stocks
  induction stocks with
  | nil => intro a b d s; simp
  | cons p ps ih =>
      intro a b d s
      rw [List.foldl_cons, summaryStep, ih]
      simp [add_assoc]

/-- Length of the moving-average series when enough prices exist. -/
theorem calculate_sma_length (prices : List ℚ) (period : ℕ)
    (h : ¬ prices.length < period) :
    (calculate_sma prices period).length = prices.length - period + 1 := by
  simp [calculate_sma, h]

/-- The moving-average series is nonempty when enough prices exist. -/
theorem calculate_sma_ne_nil (prices : List ℚ) (period : ℕ)
    (h : ¬ prices.length < period) : calculate_sma prices period ≠ [] := by
  have hlen := calculate_sma_length prices period h
  exact List.ne_nil_of_length_pos (by omega)

/-! ## Claim theorems -/

/-- Claim C4 (confirmed): there is a trade sequence with a sell exceeding
the positive shares held at that point whose replay makes the sell ratio
exceed 1, the total cost negative, and the current shares negative: buy 10
then sell 20. -/
theorem c4_oversell_negative :
    ∃ t1 t2 : Trade,
      t2.action = .sell ∧
      0 < (replay [t1]).shares ∧
      (replay [t1]).shares < t2.shares ∧
      1 < (t2.shares : ℚ) / ((replay [t1]).shares : ℚ) ∧
      (replay [t1, t2]).cost < 0 ∧
      (replay [t1, t2]).shares < 0 := by
  refine ⟨⟨0, .buy, 1, 10, 0, ""⟩, ⟨1, .sell, 1, 20, 0, ""⟩, ?_⟩
  norm_num [replay, step]

/-- Claim C6 (confirmed): the spec's round-trip example replays to
500 shares, total cost 10070, total commission 15, average cost 20.14, and
profit/loss at price 20.50 is market value 10250, total investment 10085,
profit/loss 165, rate 100·165/10085. -/
theorem c6_round_trip :
    roundTripCalc.current_shares = 500 ∧
    roundTripCalc.total_cost = (2014 / 100 : ℚ) * 500 ∧
    roundTripCalc.total_cost = 10070 ∧
    roundTripCalc.total_commission = 15 ∧
    get_average_cost roundTripCalc = 2014 / 100 ∧
    calculate_profit_loss roundTripCalc (2050 / 100) =
      ⟨165, 100 * 165 / 10085, 10250, 10085⟩ := by
  norm_num [roundTripCalc, buyOp, sellOp, add_trade, recalc, replay, sortByDate,
    dateLE, step, initCalc, get_average_cost, calculate_profit_loss,
    get_total_investment, List.insertionSort, List.orderedInsert]

/-- Counterexample to claim C3: a lone sell with commission 5 replayed from
the zero position leaves `total_commission = 0` — the skipped sell's
commission is not accumulated. -/
theorem c3_skipped_sell_commission :
    (replay [orphanSell]).commission = 0 ∧ orphanSell.commission = 5 := by
  decide

/-- Counterexample to claim C2: on a list of exactly two prices the source
calls `statistics.stdev` on a single return and a `StatisticsError`
escapes (`none` in the embedding) instead of an annualized figure. -/
theorem c2_two_price_exception :
    annualized_variance [1, 2] = none ∧ ([1, 2] : List ℚ).length = 2 := by
  decide

/-- Counterexample to claim C5: with exactly `long_period` prices the
golden-cross signal still fires — the long series' previous value is read
as its current value, but the short series has a genuine previous value on
the other side of it. -/
theorem c5_golden_cross_fires :
    jumpPrices.length = 20 ∧ analyze_trend jumpPrices 5 20 = .goldenCross := by
  norm_num [jumpPrices, analyze_trend, calculate_sma, List.replicate,
    List.range_succ]
  intro h
  simp at h

/-- Counterexample to claim C1: an empty calculator (0 shares) with calm
history `[10]` gets risk level medium, not low, although the volatility is
0 (no escalation) and the trend is the insufficient-data sentinel (no
escalation); the break-even advice is also reported. -/
theorem c1_low_risk_counterexample :
    get_comprehensive_advice (initCalc "X") 10 [10] =
      some (.ok zeroPositionBundle) ∧
    zeroPositionBundle.risk_level = .medium ∧
    zeroPositionBundle.risk_level ≠ .low ∧
    zeroPositionBundle.ann_variance = 0 ∧
    zeroPositionBundle.trend = .insufficientData ∧
    zeroPositionBundle.advice = [.averageDown] := by
  norm_num [get_comprehensive_advice, initCalc, zeroPositionBundle,
    annualized_variance, get_position_summary, get_average_cost,
    get_total_investment, calculate_profit_loss, analyze_trend,
    analyze_rsi_signal, calculate_rsi, calculate_max_drawdown,
    trendHasBuy, trendHasSell]
  all_goals decide

/-- Claim C3 (corrected): commission is added, never reduced, on every buy
and on every sell executed while shares are held; but a sell arriving when
the shares held are not positive is ignored entirely — its commission (and
all its other effects) are dropped, so the total commission is the sum over
buys and executed sells only. -/
theorem c3_commission_accumulation (ts : List Trade) (t : Trade) :
    (t.action = .buy →
      (replay (ts ++ [t])).commission = (replay ts).commission + t.commission) ∧
    (t.action = .sell → 0 < (replay ts).shares →
      (replay (ts ++ [t])).commission = (replay ts).commission + t.commission) ∧
    (t.action = .sell → (replay ts).shares ≤ 0 →
      replay (ts ++ [t]) = replay ts) := by
  rw [replay_append]
  refine ⟨fun hb => ?_, fun hs hpos => ?_, fun hs hnonpos => ?_⟩
  · simp [step, hb]
  · simp [step, hs, if_pos hpos]
  · simp [step, hs, if_neg (not_lt.2 hnonpos)]

/-- Witness for C3 at concrete inputs: replaying a buy of commission 5 after
the empty prefix adds its commission. -/
theorem c3_commission_accumulation_witness :
    (replay ([] ++ [(⟨0, .buy, 1, 1, 5, ""⟩ : Trade)])).commission =
      (replay []).commission + (5 : ℚ) :=
  (c3_commission_accumulation [] ⟨0, .buy, 1, 1, 5, ""⟩).1 rfl

/-- Claim C2 (corrected): `calculate_volatility` returns 0 for fewer than
two prices and the annualized sample standard deviation of the returns for
three or more prices, but for exactly two prices `statistics.stdev` is
called on a single return and a `StatisticsError` escapes (`none`). -/
theorem c2_volatility_behavior (prices : List ℚ) :
    (prices.length < 2 → calculate_volatility prices = some 0) ∧
    (3 ≤ prices.length → calculate_volatility prices =
      some (Real.sqrt ((sampleVarianceQ (returnsOf prices) : ℚ) : ℝ) *
        Real.sqrt 252)) ∧
    (prices.length = 2 → calculate_volatility prices = none) := by
  have hlen := returnsOf_length prices
  refine ⟨fun h2 => ?_, fun h3 => ?_, fun he => ?_⟩
  · simp [calculate_volatility, annualized_variance, h2, Real.sqrt_zero]
  · have hn2 : ¬ prices.length < 2 := by omega
    have hr2 : ¬ (returnsOf prices).length < 2 := by omega
    have hvar : 0 ≤ sampleVarianceQ (returnsOf prices) :=
      sampleVarianceQ_nonneg _ (by omega)
    have hcast : (0 : ℝ) ≤ ((sampleVarianceQ (returnsOf prices) : ℚ) : ℝ) := by
      exact_mod_cast hvar
    simp only [calculate_volatility, annualized_variance, if_neg hn2,
      if_neg hr2, Option.map_some']
    congr 1
    push_cast
    rw [Real.sqrt_mul hcast]
  · have hn2 : ¬ prices.length < 2 := by omega
    have hr2 : (returnsOf prices).length < 2 := by omega
    simp [calculate_volatility, annualized_variance, hn2, hr2]

/-- Witness for C2 at concrete inputs: a single price yields volatility 0,
and three prices yield a value (no exception). -/
theorem c2_volatility_behavior_witness :
    calculate_volatility [10] = some 0 ∧
    calculate_volatility [10, 11, 12] =
      some (Real.sqrt ((sampleVarianceQ (returnsOf [10, 11, 12]) : ℚ) : ℝ) *
        Real.sqrt 252) :=
  ⟨(c2_volatility_behavior [10]).1 (by norm_num),
   (c2_volatility_behavior [10, 11, 12]).2.1 (by norm_num)⟩

/-- Claim C7 (confirmed): inserting any buys-only trade sequence through
`add_trade` leaves a total cost equal to the sum of price·shares and a
share count equal to the sum of shares over the inserted trades — values
that depend only on the multiset of trades, so the result is invariant
under permutation of the insertion order. -/
theorem c7_buys_order_invariant (ts : List Trade)
    (h : ∀ t ∈ ts, t.action = .buy) :
    (add_trades (initCalc "") ts).total_cost =
      (ts.map (fun t => t.price * (t.shares : ℚ))).sum ∧
    (add_trades (initCalc "") ts).current_shares =
      (ts.map (fun t => t.shares)).sum := by
  have hcons := consistent_add_trades (initCalc "") ts (consistent_initCalc "")
  have hperm : (add_trades (initCalc "") ts).trades.Perm ts := by
    simpa [initCalc] using add_trades_trades_perm ts (initCalc "")
  have hbuys : ∀ t ∈ (add_trades (initCalc "") ts).trades, t.action = .buy :=
    fun t ht => h t (hperm.mem_iff.1 ht)
  have hrep := replay_buys _ hbuys
  refine ⟨?_, ?_⟩
  · rw [hcons.2.1, hrep]
    exact (hperm.map (fun t => t.price * (t.shares : ℚ))).sum_eq
  · rw [hcons.1, hrep]
    exact (hperm.map (fun t => t.shares)).sum_eq

/-- Witness for C7 at concrete inputs: two buys inserted in reverse date
order still sum to cost 42 and 10 shares. -/
theorem c7_buys_order_invariant_witness :
    (add_trades (initCalc "")
      [⟨2, .buy, 3, 4, 0, ""⟩, ⟨1, .buy, 5, 6, 0, ""⟩]).total_cost =
      (([⟨2, .buy, 3, 4, 0, ""⟩, ⟨1, .buy, 5, 6, 0, ""⟩] : List Trade).map
        (fun t => t.price * (t.shares : ℚ))).sum ∧
    (add_trades (initCalc "")
      [⟨2, .buy, 3, 4, 0, ""⟩, ⟨1, .buy, 5, 6, 0, ""⟩]).current_shares =
      (([⟨2, .buy, 3, 4, 0, ""⟩, ⟨1, .buy, 5, 6, 0, ""⟩] : List Trade).map
        (fun t => t.shares)).sum :=
  c7_buys_order_invariant _ (by decide)

/-- Claim C8 (confirmed): for any price list and (positive) period the
momentum oscillator returns the empty sequence when fewer than `period + 1`
prices exist; every produced value lies in `[0, 100]`; a value is exactly
100 whenever its trailing mean loss is exactly 0; and a strictly increasing
series of length at least `period + 1` yields 100 at every computed
index. -/
theorem c8_rsi_range (prices : List ℚ) (period : ℕ) (hp : 1 ≤ period) :
    (prices.length < period + 1 → calculate_rsi prices period = []) ∧
    (∀ v ∈ calculate_rsi prices period, 0 ≤ v ∧ v ≤ 100) ∧
    (∀ j, j < prices.length - period →
      avgOf (lossesOf prices) j period = 0 →
      (calculate_rsi prices period).getD j 0 = 100) ∧
    (List.Chain' (· < ·) prices → period + 1 ≤ prices.length →
      ∀ v ∈ calculate_rsi prices period, v = 100) := by
  refine ⟨fun h => by simp [calculate_rsi, h], ?_, ?_, ?_⟩
  · intro v hv
    unfold calculate_rsi at hv
    by_cases h : prices.length < period + 1
    · simp [h] at hv
    · rw [if_neg h] at hv
      obtain ⟨j, _, rfl⟩ := List.mem_map.1 hv
      exact rsiValue_bounds _ _
        (avgOf_nonneg _ _ _ (gainsOf_nonneg prices))
        (avgOf_nonneg _ _ _ (lossesOf_nonneg prices))
  · intro j hj havg
    have hlen : ¬ prices.length < period + 1 := by omega
    rw [calculate_rsi, if_neg hlen, List.getD_eq_getElem?_getD,
      List.getElem?_map, List.getElem?_range hj]
    simp [havg, rsiValue]
  · intro hchain hlen v hv
    unfold calculate_rsi at hv
    rw [if_neg (by omega)] at hv
    obtain ⟨j, _, rfl⟩ := List.mem_map.1 hv
    rw [avg_losses_zero prices hchain j period]
    simp [rsiValue]

/-- Witness for C8 at concrete inputs: one price with period 1 is
insufficient and yields the empty oscillator sequence. -/
theorem c8_rsi_range_witness : calculate_rsi [5] 1 = [] :=
  (c8_rsi_range [5] 1 (by norm_num)).1 (by norm_num)

/-- Claim C9 (confirmed): the portfolio summary sums total investment,
market value and profit/loss over all instruments, uses price 0 for any
held instrument missing from the price mapping (so a positive position
with positive investment contributes a profit/loss of minus its total
investment), and the overall rate is `100·total_pl/total_inv` when the
total investment is positive and 0 otherwise. -/
theorem c9_portfolio_summary (stocks : List (String × StockCalculator))
    (cps : List (String × ℚ)) :
    ((get_portfolio_summary stocks cps).total_investment =
      (stocks.map (fun p =>
        (calculate_profit_loss p.2 (getPrice cps p.1)).total_investment)).sum ∧
     (get_portfolio_summary stocks cps).total_market_value =
      (stocks.map (fun p =>
        (calculate_profit_loss p.2 (getPrice cps p.1)).market_value)).sum ∧
     (get_portfolio_summary stocks cps).total_profit_loss =
      (stocks.map (fun p =>
        (calculate_profit_loss p.2 (getPrice cps p.1)).profit_loss)).sum) ∧
    (get_portfolio_summary stocks cps).total_profit_loss_rate =
      (if 0 < (get_portfolio_summary stocks cps).total_investment then
        100 * (get_portfolio_summary stocks cps).total_profit_loss /
          (get_portfolio_summary stocks cps).total_investment
       else 0) ∧
    (∀ p ∈ stocks, lookupPrice cps p.1 = none →
      0 < p.2.current_shares → 0 < get_total_investment p.2 →
      (calculate_profit_loss p.2 (getPrice cps p.1)).profit_loss =
        -(get_total_investment p.2)) := by
  have hfold := foldl_summaryStep cps stocks 0 0 0 []
  refine ⟨⟨?_, ?_, ?_⟩, ?_, ?_⟩
  · simp [get_portfolio_summary, hfold]
  · simp [get_portfolio_summary, hfold]
  · simp [get_portfolio_summary, hfold]
  · simp only [get_portfolio_summary, hfold]
    by_cases hpos : 0 < (0 : ℚ) +
        (stocks.map (fun p =>
          (calculate_profit_loss p.2 (getPrice cps p.1)).total_investment)).sum
    · rw [if_pos hpos, if_pos (by simpa using hpos)]
      rw [div_mul_eq_mul_div, mul_comm]
    · rw [if_neg hpos, if_neg (by simpa using hpos)]
  · intro p _ hmiss hshares hinv
    have hprice : getPrice cps p.1 = 0 := by simp [getPrice, hmiss]
    rw [hprice, calculate_profit_loss, if_neg (not_le.2 hshares)]
    simp

/-- Witness for C9 at concrete inputs: a one-instrument portfolio holding
a bought position, priced with an empty mapping, shows the full negative
loss. -/
theorem c9_portfolio_summary_witness :
    (calculate_profit_loss (buyOp (initCalc "A") 1 10 3 1)
        (getPrice [] "A")).profit_loss =
      -(get_total_investment (buyOp (initCalc "A") 1 10 3 1)) :=
  (c9_portfolio_summary [("A", buyOp (initCalc "A") 1 10 3 1)] []).2.2
    ("A", buyOp (initCalc "A") 1 10 3 1) (by simp) (by simp [lookupPrice])
    (by norm_num [buyOp, add_trade, recalc, replay, step, sortByDate,
      List.insertionSort, initCalc])
    (by norm_num [buyOp, add_trade, recalc, replay, step, sortByDate,
      List.insertionSort, initCalc, get_total_investment])

/-- Claim C5 (corrected): with exactly `long_period` prices the long
moving-average series has one point and its previous value is read as its
current value; but the crossover test still compares the short series'
genuine previous value against that single long value, so the golden- or
death-cross signal can fire on the very first available point. -/
theorem c5_first_point_trend (prices : List ℚ) (sp lp : ℕ)
    (h1 : 1 ≤ sp) (h2 : sp ≤ lp) (hl : prices.length = lp) :
    analyze_trend prices sp lp =
      (let short_sma := calculate_sma prices sp
       let cs := short_sma.getLast?.getD 0
       let cl := (calculate_sma prices lp).getLast?.getD 0
       let ps := if 1 < short_sma.length
                 then short_sma.getD (short_sma.length - 2) 0 else cs
       if cl < cs ∧ ps ≤ cl then Trend.goldenCross
       else if cs < cl ∧ cl ≤ ps then Trend.deathCross
       else if cl < cs then Trend.bullish
       else Trend.bearish) := by
  have hnl : ¬ prices.length < lp := by omega
  have hns : ¬ prices.length < sp := by omega
  have hSne := calculate_sma_ne_nil prices sp hns
  have hLlen := calculate_sma_length prices lp hnl
  have hLne := calculate_sma_ne_nil prices lp hnl
  have hL1 : ¬ 1 < (calculate_sma prices lp).length := by omega
  simp only [analyze_trend, if_neg hnl, hSne, hLne, or_self, if_false,
    if_neg hL1, ite_false]

/-- Witness for C5 at concrete inputs: twenty constant prices sit in the
no-crossover branch and yield the bearish signal. -/
theorem c5_first_point_trend_witness :
    analyze_trend (List.replicate 20 (10 : ℚ)) 5 20 = Trend.bearish := by
  have h := c5_first_point_trend (List.replicate 20 (10 : ℚ)) 5 20
    (by norm_num) (by norm_num) (by simp)
  rw [h]
  norm_num [calculate_sma, List.replicate, List.range_succ]

/-- Counterexample to claim C10: with exactly two recorded prices (fewer
than the long period), `analyze_stock` raises through the volatility
computation (`none`) instead of returning a bundle whose trend field is the
insufficient-data sentinel. -/
theorem c10_two_price_history_raises :
    twoPointAnalyzer.price_history.length = 2 ∧
    twoPointAnalyzer.price_history.length < 20 ∧
    analyze_stock twoPointAnalyzer 12 = none := by
  decide

/-- Claim C1 (corrected): on a no-position instrument (0 shares) the
zero-filled profit/loss falls into the loss/break-even branch of
`get_comprehensive_advice`: the averaging-down/stop-loss advice is
reported and the risk level becomes medium — or high when the volatility
exceeds 0.5 (variance above 1/4) — but never the low default. -/
theorem c1_zero_position_risk (c : StockCalculator) (cp : ℚ)
    (prices : List ℚ) (b : AdviceBundle) (av : ℚ)
    (hshares : c.current_shares = 0)
    (hav : annualized_variance prices = some av)
    (hres : get_comprehensive_advice c cp prices = some (.ok b)) :
    b.risk_level = (if 1 / 4 < av then RiskLevel.high else RiskLevel.medium) ∧
    Advice.averageDown ∈ b.advice ∧
    b.risk_level ≠ RiskLevel.low := by
  have hpl : calculate_profit_loss c cp = ⟨0, 0, 0, 0⟩ := by
    rw [calculate_profit_loss, if_pos hshares.le]
  by_cases hnil : prices = []
  · rw [get_comprehensive_advice, if_pos hnil] at hres
    simp at hres
  · rw [get_comprehensive_advice, if_neg hnil, hav] at hres
    simp only [hpl] at hres
    norm_num at hres
    rw [← hres]
    refine ⟨?_, ?_, ?_⟩
    · split_ifs <;> simp
    · split_ifs <;> simp
    · split_ifs <;> simp

/-- Witness for C1 at concrete inputs: the empty calculator at price 10
with history `[10]` (variance 0) lands on risk medium with the
averaging-down advice. -/
theorem c1_zero_position_risk_witness :
    (zeroPositionBundle.risk_level =
      if (1 : ℚ) / 4 < 0 then RiskLevel.high else RiskLevel.medium) ∧
    Advice.averageDown ∈ zeroPositionBundle.advice ∧
    zeroPositionBundle.risk_level ≠ RiskLevel.low :=
  c1_zero_position_risk (initCalc "X") 10 [10] zeroPositionBundle 0 rfl
    (by norm_num [annualized_variance])
    (by norm_num [get_comprehensive_advice, initCalc, zeroPositionBundle,
      annualized_variance, get_position_summary, get_average_cost,
      get_total_investment, calculate_profit_loss, analyze_trend,
      analyze_rsi_signal, calculate_rsi, calculate_max_drawdown,
      trendHasBuy, trendHasSell])

/-- Claim C10 (corrected): `analyze_stock` substitutes `[current_price]`
for an empty history, so the error bundle is unreachable through it; and
whenever fewer than `long_period` prices are recorded — except exactly two,
where the volatility computation raises — the returned bundle's trend field
is the insufficient-data sentinel. -/
theorem c10_analyze_stock (a : StockAnalyzer) (cp : ℚ) :
    analyze_stock a cp ≠ some AdviceResult.err ∧
    (a.price_history.length < 20 → a.price_history.length ≠ 2 →
      resultTrend (analyze_stock a cp) = some Trend.insufficientData) := by
  have hlen : (get_price_list a).length = a.price_history.length := by
    simp [get_price_list]
  have heq : analyze_stock a cp = get_comprehensive_advice a.calculator cp
      (if get_price_list a = [] then [cp] else get_price_list a) := rfl
  constructor
  · rw [heq]
    by_cases hnil : get_price_list a = []
    · rw [if_pos hnil, get_comprehensive_advice, if_neg (by simp)]
      cases hv : annualized_variance [cp] <;> simp
    · rw [if_neg hnil, get_comprehensive_advice, if_neg hnil]
      cases hv : annualized_variance (get_price_list a) <;> simp
  · intro h20 hne2
    rw [heq]
    by_cases hnil : get_price_list a = []
    · rw [if_pos hnil]
      have hs : (annualized_variance [cp]).isSome :=
        (annualized_variance_isSome [cp]).2 (by simp)
      obtain ⟨av, hav⟩ := Option.isSome_iff_exists.1 hs
      rw [get_comprehensive_advice, if_neg (by simp), hav]
      simp only [resultTrend, Option.some.injEq]
      rw [analyze_trend, if_pos (by simp)]
    · rw [if_neg hnil]
      have hplen : (get_price_list a).length ≠ 2 := by omega
      have hs : (annualized_variance (get_price_list a)).isSome :=
        (annualized_variance_isSome _).2 hplen
      obtain ⟨av, hav⟩ := Option.isSome_iff_exists.1 hs
      rw [get_comprehensive_advice, if_neg hnil, hav]
      simp only [resultTrend, Option.some.injEq]
      rw [analyze_trend, if_pos (by omega)]

/-- Witness for C10 at concrete inputs: an analyzer with no recorded
history at price 10 returns the insufficient-data trend and not the error
bundle. -/
theorem c10_analyze_stock_witness :
    resultTrend (analyze_stock ⟨initCalc "", []⟩ 10) =
      some Trend.insufficientData ∧
    analyze_stock ⟨initCalc "", []⟩ 10 ≠ some AdviceResult.err :=
  ⟨(c10_analyze_stock ⟨initCalc "", []⟩ 10).2 (by norm_num) (by norm_num),
   (c10_analyze_stock ⟨initCalc "", []⟩ 10).1⟩

end StockSpec
